import Mathlib

/-!
Verification development for the pluggedin-mcp proxy.

The TypeScript sources are shallowly embedded: JS strings become lists of
characters, JS objects used as string-keyed dictionaries become association
lists (when the entry structure matters) or functions to `Option` (when only
lookup matters), asynchronous calls to collaborators become explicit oracle
arguments, and thrown exceptions become `Except.error`.
-/

set_option maxRecDepth 4000

/-- JS strings are modelled as lists of characters. -/
abbrev Str := List Char

/-- The namespace separator used by session keys and prefixed tool names. -/
def sep : Char := '_'

/-! ### Association-list dictionaries (JS `Record` / `Map`) -/

/-- Lookup in an association list; models `obj[key]` / `map.get(key)`. -/
def alookup {β : Type} : List (Str × β) → Str → Option β
  | [], _ => none
  | e :: rest, k => if e.1 = k then some e.2 else alookup rest k

/-- In-place overwrite-or-append; models JS `Map.set` / `obj[key] = v`. -/
def aset {β : Type} : List (Str × β) → Str → β → List (Str × β)
  | [], k, v => [(k, v)]
  | e :: rest, k, v => if e.1 = k then (k, v) :: rest else e :: aset rest k v

theorem alookup_eq_none_forall {β : Type} {l : List (Str × β)} {k : Str}
    (h : alookup l k = none) : ∀ e ∈ l, e.1 ≠ k := by
  induction l with
  | nil => intro e he; cases he
  | cons e rest ih =>
    intro x hx
    by_cases hek : e.1 = k
    · simp [alookup, hek] at h
    · rcases List.mem_cons.mp hx with hx | hx
      · simpa [hx] using hek
      · exact ih (by simpa [alookup, hek] using h) x hx

theorem alookup_eq_none_of_forall {β : Type} {l : List (Str × β)} {k : Str}
    (h : ∀ e ∈ l, e.1 ≠ k) : alookup l k = none := by
  induction l with
  | nil => rfl
  | cons e rest ih =>
    have he : e.1 ≠ k := h e (by simp)
    exact by simp [alookup, he, ih (fun x hx => h x (by simp [hx]))]

theorem alookup_filter_of_none {β : Type} {l : List (Str × β)} {k : Str}
    (p : Str × β → Bool) (h : alookup l k = none) :
    alookup (l.filter p) k = none := by
  induction l with
  | nil => simp [alookup]
  | cons e rest ih =>
    by_cases hek : e.1 = k
    · simp [alookup, hek] at h
    · have h' : alookup rest k = none := by simpa [alookup, hek] using h
      by_cases hp : p e
      · simp [List.filter, hp, alookup, hek, ih h']
      · simp [List.filter, hp, ih h']

theorem alookup_filter_of_holds {β : Type} {l : List (Str × β)} {k : Str}
    {p : Str × β → Bool} (h : ∀ e ∈ l, e.1 = k → p e = true) :
    alookup (l.filter p) k = alookup l k := by
  induction l with
  | nil => simp
  | cons e rest ih =>
    have hrest : ∀ x ∈ rest, x.1 = k → p x = true := fun x hx => h x (by simp [hx])
    by_cases hek : e.1 = k
    · have hpe : p e = true := h e (by simp) hek
      simp [List.filter, hpe, alookup, hek]
    · by_cases hp : p e
      · simp [List.filter, hp, alookup, hek, ih hrest]
      · simp [List.filter, hp, alookup, hek, ih hrest]

theorem alookup_append_left_none {β : Type} {l₁ l₂ : List (Str × β)} {k : Str}
    (h : alookup l₁ k = none) : alookup (l₁ ++ l₂) k = alookup l₂ k := by
  induction l₁ with
  | nil => simp
  | cons e rest ih =>
    by_cases hek : e.1 = k
    · simp [alookup, hek] at h
    · have h' : alookup rest k = none := by simpa [alookup, hek] using h
      simp [alookup, hek, ih h']

theorem alookup_append_singleton_ne {β : Type} {l : List (Str × β)} {k k' : Str}
    {v : β} (h : k ≠ k') : alookup (l ++ [(k', v)]) k = alookup l k := by
  induction l with
  | nil => simp [alookup, Ne.symm h]
  | cons e rest ih =>
    by_cases hek : e.1 = k
    · simp [alookup, hek]
    · simp [alookup, hek, ih]

theorem alookup_aset_self {β : Type} (l : List (Str × β)) (k : Str) (v : β) :
    alookup (aset l k v) k = some v := by
  induction l with
  | nil => simp [aset, alookup]
  | cons e rest ih =>
    by_cases hek : e.1 = k
    · simp [aset, hek, alookup]
    · simp [aset, hek, alookup, ih]

theorem alookup_aset_ne {β : Type} (l : List (Str × β)) {k k' : Str} (v : β)
    (h : k' ≠ k) : alookup (aset l k v) k' = alookup l k' := by
  induction l with
  | nil => simp [aset, alookup, Ne.symm h]
  | cons e rest ih =>
    by_cases hek : e.1 = k
    · have hek' : e.1 ≠ k' := by rw [hek]; exact Ne.symm h
      simp [aset, hek, alookup, Ne.symm h, hek']
    · simp [aset, hek, alookup, ih]

/-! ### TTL cache (src/cache.ts)

`Cache<T>` holds `Map<string, {data, timestamp}>` and a TTL in milliseconds.
Time (`Date.now()`) is passed explicitly to each operation.
-/

structure CacheEntry (T : Type) where
  data : T
  timestamp : Nat
deriving DecidableEq

structure CacheState (T : Type) where
  cache : List (Str × CacheEntry T)
  ttl : Nat
deriving DecidableEq

/-- `Cache.get(key)`: `null` if absent; delete-and-`null` if
`now - entry.timestamp > this.ttl`; otherwise the stored data. -/
def cacheGet {T : Type} (c : CacheState T) (key : Str) (now : Nat) :
    Option T × CacheState T :=
  match alookup c.cache key with
  | none => (none, c)
  | some entry =>
    if now - entry.timestamp > c.ttl then
      (none, { c with cache := c.cache.filter (fun e => e.1 ≠ key) })
    else
      (some entry.data, c)

/-- `Cache.set(key, data)`: always overwrites, stamping the current time. -/
def cacheSet {T : Type} (c : CacheState T) (key : Str) (data : T) (now : Nat) :
    CacheState T :=
  { c with cache := aset c.cache key ⟨data, now⟩ }

/-- `Cache.invalidate(key)`. -/
def cacheInvalidate {T : Type} (c : CacheState T) (key : Str) : CacheState T :=
  { c with cache := c.cache.filter (fun e => e.1 ≠ key) }

/-- `Cache.invalidateAll()`. -/
def cacheInvalidateAll {T : Type} (c : CacheState T) : CacheState T :=
  { c with cache := [] }

/-- `Cache.size()`. -/
def cacheSize {T : Type} (c : CacheState T) : Nat := c.cache.length

theorem alookup_filter_ne_self {β : Type} (l : List (Str × β)) (k : Str) :
    alookup (l.filter (fun e => e.1 ≠ k)) k = none :=
  alookup_eq_none_of_forall (fun e he => by simpa using List.of_mem_filter he)

/-- C9: `set(k, v)` followed by `get(k)` within the TTL returns `v` (set always
overwrites and resets the timestamp); `get(k)` after the TTL has elapsed since
the entry was stored returns absent and removes the entry. -/
theorem cache_set_get_roundtrip {T : Type} (c : CacheState T) (k : Str) (v : T)
    (now later : Nat) :
    (later - now ≤ c.ttl →
      (cacheGet (cacheSet c k v now) k later).1 = some v)
    ∧ (later - now > c.ttl →
      (cacheGet (cacheSet c k v now) k later).1 = none
      ∧ alookup (cacheGet (cacheSet c k v now) k later).2.cache k = none) := by
  have hstored : alookup (aset c.cache k (⟨v, now⟩ : CacheEntry T)) k
      = some (⟨v, now⟩ : CacheEntry T) :=
    alookup_aset_self c.cache k ⟨v, now⟩
  have hfilter := alookup_filter_ne_self (aset c.cache k (⟨v, now⟩ : CacheEntry T)) k
  constructor
  · intro hle
    have hnotexp : ¬ (later - now > c.ttl) := by omega
    simp [cacheGet, cacheSet, hstored, hnotexp]
  · intro hgt
    refine ⟨by simp [cacheGet, cacheSet, hstored, hgt], ?_⟩
    simp only [cacheGet, cacheSet, hstored]
    simp only [gt_iff_lt] at hgt
    simp only [hgt, if_true, if_pos]
    simpa using hfilter

/-- Witness for C9 at concrete inputs (TTL 60000, stored at 5, read at 10 and
at 70010). -/
theorem cache_set_get_roundtrip_witness :
    ((10 : Nat) - 5 ≤ (60000 : Nat)
      ∧ (cacheGet (cacheSet (⟨[], 60000⟩ : CacheState Nat) "tools".data 7 5)
          "tools".data 10).1 = some 7)
    ∧ ((70010 : Nat) - 5 > (60000 : Nat)
      ∧ (cacheGet (cacheSet (⟨[], 60000⟩ : CacheState Nat) "tools".data 7 5)
          "tools".data 70010).1 = none
      ∧ alookup (cacheGet (cacheSet (⟨[], 60000⟩ : CacheState Nat) "tools".data 7 5)
          "tools".data 70010).2.cache "tools".data = none) :=
  ⟨⟨by decide,
    (cache_set_get_roundtrip (⟨[], 60000⟩ : CacheState Nat) "tools".data 7 5 10).1
      (by decide)⟩,
   ⟨by decide,
    (cache_set_get_roundtrip (⟨[], 60000⟩ : CacheState Nat) "tools".data 7 5 70010).2
      (by decide)⟩⟩

/-! ### Session manager (src/sessions.ts)

`_sessions : Record<string, ConnectedClient>` is the registry. A session key
is produced by `getSessionKey(uuid, params)` (utils.ts); drift cleanup matches
registry keys by the prefix `` `${uuid}_` ``. A `ConnectedClient` is modelled
by a fresh numeric identity (object identity) plus the uuid and params it was
created from; the transport factory and the protocol handshake are modelled by
a boolean oracle `connectOk`.
-/

/-- Connection parameters of a downstream server, as an opaque serialized
string. -/
abbrev ServerParameters := Str

structure ConnectedClient where
  id : Nat
  uuid : Str
  params : ServerParameters
deriving DecidableEq

structure SessionState where
  sessions : List (Str × ConnectedClient)
  nextId : Nat
deriving DecidableEq

def initialSessionState : SessionState := ⟨[], 0⟩

/-- Boolean test for `k.startsWith(p)` on JS strings. -/
def startsWithStr : Str → Str → Bool
  | [], _ => true
  | _ :: _, [] => false
  | p :: ps, c :: cs => p = c && startsWithStr ps cs

/-- Modelled from the spec: `getSessionKey` lives in `utils.ts`, which is not
among the provided sources. Spec section 3 says the key is
`hash(serverId, connectionParameters)` and the drift cleanup in `sessions.ts`
matches keys by the `` `${uuid}_` `` prefix, so the key is the server id, the
separator, and a params digest (the digest is modelled by the serialized
params themselves, which is injective like a collision-free hash). -/
def getSessionKey (uuid : Str) (params : ServerParameters) : Str :=
  uuid ++ [sep] ++ params

/-- Result of one `getSession` call: the new registry state, the returned
session (if any), the superseded sessions that were cleaned up, and how many
transports were opened. -/
structure GetSessionResult where
  state : SessionState
  result : Option ConnectedClient
  closed : List ConnectedClient
  opened : Nat
deriving DecidableEq

/-- `getSession(sessionKey, uuid, params)` from src/sessions.ts: return the
live entry for `sessionKey` if present; otherwise tear down every session
whose key starts with `` `${uuid}_` `` and try to open and connect a new
client (failure modelled by `connectOk = false` returns `undefined` with
nothing installed), registering it under `sessionKey` on success. Each
teardown is `await _sessions[k].cleanup(); delete _sessions[k]` inside
`Promise.allSettled`: when `cleanup()` rejects, the rejection is swallowed
and the `delete` is skipped, so that entry stays registered. The per-key
oracle `cleanupOk` models whether `cleanup()` resolves; `closed` lists the
sessions whose teardown completed. -/
def getSession (st : SessionState) (sessionKey : Str) (uuid : Str)
    (params : ServerParameters) (connectOk : Bool)
    (cleanupOk : Str → Bool) : GetSessionResult :=
  match alookup st.sessions sessionKey with
  | some c => ⟨st, some c, [], 0⟩
  | none =>
    let cleaned := st.sessions.filter
      (fun e => startsWithStr (uuid ++ [sep]) e.1 && cleanupOk e.1)
    let remaining := st.sessions.filter
      (fun e => ! (startsWithStr (uuid ++ [sep]) e.1 && cleanupOk e.1))
    if connectOk then
      let newClient : ConnectedClient := ⟨st.nextId, uuid, params⟩
      ⟨⟨remaining ++ [(sessionKey, newClient)], st.nextId + 1⟩,
        some newClient, cleaned.map (·.2), 1⟩
    else
      ⟨⟨remaining, st.nextId⟩, none, cleaned.map (·.2), 0⟩

/-- `cleanupAllSessions()` closes every live session and deletes its entry;
as in `getSession`, an entry whose `cleanup()` rejects inside
`Promise.allSettled` is not deleted, so the registry keeps it. -/
def cleanupAllSessions (st : SessionState) (cleanupOk : Str → Bool) :
    SessionState × List ConnectedClient :=
  (⟨st.sessions.filter (fun e => ! cleanupOk e.1), st.nextId⟩,
   (st.sessions.filter (fun e => cleanupOk e.1)).map (·.2))

/-- One operation against the session manager, with the transport and
teardown oracles. Callers of `getSession` always pass
`getSessionKey(uuid, params)` as the key. -/
inductive SessionOp
  | get (uuid : Str) (params : ServerParameters) (connectOk : Bool)
      (cleanupOk : Str → Bool)
  | cleanup (cleanupOk : Str → Bool)

def runOps : List SessionOp → SessionState → SessionState
  | [], st => st
  | SessionOp.get uuid params ok co :: rest, st =>
    runOps rest (getSession st (getSessionKey uuid params) uuid params ok co).state
  | SessionOp.cleanup co :: rest, st => runOps rest (cleanupAllSessions st co).1

/-- Trace variant of `runOps`: final state, the per-call results (`none` for a
`cleanup` step), and the total number of transports opened. -/
def runOpsTrace : List SessionOp → SessionState →
    SessionState × List (Option ConnectedClient) × Nat
  | [], st => (st, [], 0)
  | SessionOp.get uuid params ok co :: rest, st =>
    let r := getSession st (getSessionKey uuid params) uuid params ok co
    let t := runOpsTrace rest r.state
    (t.1, r.result :: t.2.1, r.opened + t.2.2)
  | SessionOp.cleanup co :: rest, st =>
    let t := runOpsTrace rest (cleanupAllSessions st co).1
    (t.1, none :: t.2.1, t.2.2)

/-- Server ids (UUIDs) never contain the key separator. -/
def OpUuidOk : SessionOp → Prop
  | SessionOp.get uuid _ _ _ => sep ∉ uuid
  | SessionOp.cleanup _ => True

instance : DecidablePred OpUuidOk := fun op => by
  cases op with
  | get uuid params ok co => exact inferInstanceAs (Decidable (sep ∉ uuid))
  | cleanup co => exact inferInstanceAs (Decidable True)

/-- Every teardown awaited inside the operation resolves, so every scheduled
`delete` runs (the supersession path of a `get`; `cleanup` operations need no
such condition for the registry invariant). -/
def OpTeardownOk : SessionOp → Prop
  | SessionOp.get _ _ _ co => ∀ k, co k = true
  | SessionOp.cleanup _ => True

/-- A teardown oracle where every `cleanup()` resolves. -/
def trueCleanup : Str → Bool := fun _ => true

/-- A teardown oracle where every `cleanup()` rejects. -/
def failingCleanup : Str → Bool := fun _ => false

/-- Well-formedness of the registry: distinct keys, every entry keyed under
its own session uuid followed by the separator, and no separator inside a
stored uuid. -/
def PrefixWF (st : SessionState) : Prop :=
  ∀ e ∈ st.sessions,
    startsWithStr (e.2.uuid ++ [sep]) e.1 = true ∧ sep ∉ e.2.uuid

/-- The invariant of claim C3: the registry never holds two sessions for the
same server id under different keys. -/
def UniqueServer (st : SessionState) : Prop :=
  ∀ e₁ ∈ st.sessions, ∀ e₂ ∈ st.sessions, e₁.2.uuid = e₂.2.uuid → e₁.1 = e₂.1

def GoodState (st : SessionState) : Prop :=
  (st.sessions.map Prod.fst).Nodup ∧ PrefixWF st ∧ UniqueServer st

instance (st : SessionState) : Decidable (PrefixWF st) :=
  inferInstanceAs (Decidable (∀ e ∈ st.sessions, _ ∧ _))

instance (st : SessionState) : Decidable (UniqueServer st) :=
  inferInstanceAs (Decidable (∀ e₁ ∈ st.sessions, ∀ e₂ ∈ st.sessions, _ → _))

instance (st : SessionState) : Decidable (GoodState st) :=
  inferInstanceAs (Decidable (_ ∧ _ ∧ _))

/-! ### Prefix lemmas for session keys -/

theorem startsWithStr_append (p t : Str) : startsWithStr p (p ++ t) = true := by
  induction p with
  | nil => rfl
  | cons a ps ih => simp [startsWithStr, ih]

theorem startsWithStr_exists {p k : Str} (h : startsWithStr p k = true) :
    ∃ t, k = p ++ t := by
  induction p generalizing k with
  | nil => exact ⟨k, rfl⟩
  | cons a ps ih =>
    cases k with
    | nil => simp [startsWithStr] at h
    | cons b ks =>
      simp only [startsWithStr, Bool.and_eq_true, decide_eq_true_eq] at h
      obtain ⟨t, ht⟩ := ih h.2
      exact ⟨t, by cases h.1; simp [ht]⟩

theorem startsWithStr_sep_inj {u v t : Str} (hu : sep ∉ u) (hv : sep ∉ v)
    (h : startsWithStr (u ++ [sep]) ((v ++ [sep]) ++ t) = true) : u = v := by
  induction u generalizing v with
  | nil =>
    cases v with
    | nil => rfl
    | cons b vs =>
      exfalso
      simp only [List.nil_append, List.cons_append, startsWithStr, Bool.and_eq_true,
        decide_eq_true_eq] at h
      exact hv (by rw [h.1]; exact List.mem_cons_self b vs)
  | cons a us ih =>
    cases v with
    | nil =>
      exfalso
      simp only [List.nil_append, List.cons_append, startsWithStr, Bool.and_eq_true,
        decide_eq_true_eq] at h
      exact hu (by rw [← h.1]; exact List.mem_cons_self a us)
    | cons b vs =>
      simp only [List.cons_append, startsWithStr, Bool.and_eq_true,
        decide_eq_true_eq] at h
      have hus : sep ∉ us := fun hm => hu (List.mem_cons_of_mem a hm)
      have hvs : sep ∉ vs := fun hm => hv (List.mem_cons_of_mem b hm)
      rw [h.1, ih hus hvs h.2]

theorem startsWithStr_ne_server {u v k : Str} (hu : sep ∉ u) (hv : sep ∉ v)
    (hne : u ≠ v) (hk : startsWithStr (v ++ [sep]) k = true) :
    startsWithStr (u ++ [sep]) k = false := by
  cases hb : startsWithStr (u ++ [sep]) k with
  | false => rfl
  | true =>
    exfalso
    obtain ⟨t, ht⟩ := startsWithStr_exists hk
    rw [ht] at hb
    exact hne (startsWithStr_sep_inj hu hv hb)

theorem startsWithStr_key (uuid : Str) (params : ServerParameters) :
    startsWithStr (uuid ++ [sep]) (getSessionKey uuid params) = true := by
  have h := startsWithStr_append (uuid ++ [sep]) params
  simpa [getSessionKey, List.append_assoc] using h

theorem eq_of_nodup_keys {β : Type} {l : List (Str × β)}
    (hnd : (l.map Prod.fst).Nodup) {x y : Str × β}
    (hx : x ∈ l) (hy : y ∈ l) (hkey : x.1 = y.1) : x = y := by
  induction l with
  | nil => cases hx
  | cons a rest ih =>
    simp only [List.map_cons, List.nodup_cons] at hnd
    rcases List.mem_cons.mp hx with hx | hx <;> rcases List.mem_cons.mp hy with hy | hy
    · rw [hx, hy]
    · have hay : a.1 = y.1 := by rw [← hx]; exact hkey
      exact absurd (by rw [hay]; exact List.mem_map_of_mem Prod.fst hy) hnd.1
    · have hax : a.1 = x.1 := by rw [← hy]; exact hkey.symm
      exact absurd (by rw [hax]; exact List.mem_map_of_mem Prod.fst hx) hnd.1
    · exact ih hnd.2 hx hy

theorem nodup_all_eq_singleton {α : Type} {l : List α} {e : α}
    (hnd : l.Nodup) (he : e ∈ l) (hall : ∀ x ∈ l, x = e) : l = [e] := by
  cases l with
  | nil => cases he
  | cons a rest =>
    have ha : a = e := hall a (by simp)
    have hrest : rest = [] := by
      cases rest with
      | nil => rfl
      | cons b rs =>
        have hb : b = e := hall b (by simp)
        exfalso
        simp only [List.nodup_cons] at hnd
        exact hnd.1 (by rw [ha, ← hb]; simp)
    rw [ha, hrest]

/-! ### Session registry invariants -/

theorem good_empty (n : Nat) : GoodState ⟨[], n⟩ := by
  refine ⟨by simp, ?_, ?_⟩
  · intro e he; cases he
  · intro e₁ h₁; cases h₁

theorem good_install (st : SessionState) (uuid : Str) (params : ServerParameters)
    (hgood : GoodState st) (hu : sep ∉ uuid)
    (hl : alookup st.sessions (getSessionKey uuid params) = none) :
    GoodState ⟨(st.sessions.filter (fun e => ! startsWithStr (uuid ++ [sep]) e.1))
      ++ [(getSessionKey uuid params,
            (⟨st.nextId, uuid, params⟩ : ConnectedClient))], st.nextId + 1⟩ := by
  obtain ⟨hnd, hwf, huniq⟩ := hgood
  have hnotin := alookup_eq_none_forall hl
  have hsub : List.Sublist
      (st.sessions.filter (fun e => ! startsWithStr (uuid ++ [sep]) e.1))
      st.sessions := List.filter_sublist _
  have hndr : ((st.sessions.filter (fun e => ! startsWithStr (uuid ++ [sep]) e.1)).map
      Prod.fst).Nodup := List.Nodup.sublist (List.Sublist.map Prod.fst hsub) hnd
  have hmem : ∀ e ∈ st.sessions.filter (fun e => ! startsWithStr (uuid ++ [sep]) e.1),
      e ∈ st.sessions ∧ startsWithStr (uuid ++ [sep]) e.1 = false := by
    intro e he
    refine ⟨List.mem_of_mem_filter he, ?_⟩
    have h2 := List.of_mem_filter he
    simpa using h2
  refine ⟨?_, ?_, ?_⟩
  · simp only [List.map_append, List.map_cons, List.map_nil]
    refine List.Nodup.append hndr (List.nodup_singleton _) ?_
    intro a ha hb
    rw [List.mem_singleton.mp hb] at ha
    obtain ⟨e, he, hke⟩ := List.mem_map.mp ha
    exact hnotin e (hmem e he).1 hke
  · intro e he
    rcases List.mem_append.mp he with he | he
    · exact hwf e (hmem e he).1
    · rw [List.mem_singleton.mp he]
      exact ⟨startsWithStr_key uuid params, hu⟩
  · intro e₁ h₁ e₂ h₂ hequ
    rcases List.mem_append.mp h₁ with h₁ | h₁ <;> rcases List.mem_append.mp h₂ with h₂ | h₂
    · exact huniq e₁ (hmem e₁ h₁).1 e₂ (hmem e₂ h₂).1 hequ
    · exfalso
      have he₂ := List.mem_singleton.mp h₂
      have h1uuid : e₁.2.uuid = uuid := by rw [hequ, he₂]
      have htrue : startsWithStr (uuid ++ [sep]) e₁.1 = true := by
        rw [← h1uuid]; exact (hwf e₁ (hmem e₁ h₁).1).1
      rw [(hmem e₁ h₁).2] at htrue
      cases htrue
    · exfalso
      have he₁ := List.mem_singleton.mp h₁
      have h2uuid : e₂.2.uuid = uuid := by rw [← hequ, he₁]
      have htrue : startsWithStr (uuid ++ [sep]) e₂.1 = true := by
        rw [← h2uuid]; exact (hwf e₂ (hmem e₂ h₂).1).1
      rw [(hmem e₂ h₂).2] at htrue
      cases htrue
    · rw [List.mem_singleton.mp h₁, List.mem_singleton.mp h₂]

theorem good_filter (st : SessionState) (p : Str × ConnectedClient → Bool)
    (nid : Nat) (hgood : GoodState st) :
    GoodState ⟨st.sessions.filter p, nid⟩ := by
  obtain ⟨hnd, hwf, huniq⟩ := hgood
  have hsub : List.Sublist (st.sessions.filter p) st.sessions :=
    List.filter_sublist _
  refine ⟨List.Nodup.sublist (List.Sublist.map Prod.fst hsub) hnd, ?_, ?_⟩
  · exact fun e he => hwf e (List.mem_of_mem_filter he)
  · exact fun e₁ h₁ e₂ h₂ hequ =>
      huniq e₁ (List.mem_of_mem_filter h₁) e₂ (List.mem_of_mem_filter h₂) hequ

theorem getSession_preserves_good (st : SessionState) (uuid : Str)
    (params : ServerParameters) (ok : Bool) (co : Str → Bool)
    (hgood : GoodState st) (hu : sep ∉ uuid) (hco : ∀ k, co k = true) :
    GoodState (getSession st (getSessionKey uuid params) uuid params ok co).state := by
  cases hl : alookup st.sessions (getSessionKey uuid params) with
  | some c => simpa [getSession, hl] using hgood
  | none =>
    cases ok with
    | true =>
      have hstate : (getSession st (getSessionKey uuid params) uuid params true co).state
          = ⟨(st.sessions.filter (fun e => ! startsWithStr (uuid ++ [sep]) e.1))
              ++ [(getSessionKey uuid params,
                    (⟨st.nextId, uuid, params⟩ : ConnectedClient))], st.nextId + 1⟩ := by
        simp [getSession, hl, hco]
      rw [hstate]
      exact good_install st uuid params hgood hu hl
    | false =>
      have hstate : (getSession st (getSessionKey uuid params) uuid params false co).state
          = ⟨st.sessions.filter (fun e => ! startsWithStr (uuid ++ [sep]) e.1),
              st.nextId⟩ := by
        simp [getSession, hl, hco]
      rw [hstate]
      exact good_filter st _ st.nextId hgood

theorem runOps_preserves_good (ops : List SessionOp) (st : SessionState)
    (hgood : GoodState st)
    (hops : ∀ op ∈ ops, OpUuidOk op ∧ OpTeardownOk op) :
    GoodState (runOps ops st) := by
  induction ops generalizing st with
  | nil => simpa [runOps] using hgood
  | cons op rest ih =>
    cases op with
    | get uuid params ok co =>
      have h := hops (SessionOp.get uuid params ok co) (List.mem_cons_self _ _)
      have hu : sep ∉ uuid := by simpa [OpUuidOk] using h.1
      have hco : ∀ k, co k = true := by simpa [OpTeardownOk] using h.2
      simp only [runOps]
      exact ih _ (getSession_preserves_good st uuid params ok co hgood hu hco)
        (fun o ho => hops o (by simp [ho]))
    | cleanup co =>
      simp only [runOps]
      exact ih _ (good_filter st _ st.nextId hgood)
        (fun o ho => hops o (by simp [ho]))

/-- C3 (amended): provided every teardown of a superseded session completes
(the awaited `cleanup()` resolves, so its `delete` runs), the registry never
holds two sessions for the same serverId under different session keys across
any sequence of getSession and cleanup operations; and when the connection
params of a server with a live session change (so the new session key is
absent), that previously live session is torn down exactly once by the call
that installs the new one, it is gone from the registry afterwards, and on
transport success the new session is registered in the same call. When a
teardown rejects, the stale entry instead stays registered alongside the new
session. -/
theorem session_registry_invariant :
    (∀ ops : List SessionOp, (∀ op ∈ ops, OpUuidOk op ∧ OpTeardownOk op) →
      UniqueServer (runOps ops initialSessionState))
    ∧ (∀ (st : SessionState) (uuid : Str) (params : ServerParameters) (ok : Bool)
        (co : Str → Bool) (e : Str × ConnectedClient),
        GoodState st → sep ∉ uuid → (∀ k, co k = true) →
        e ∈ st.sessions → e.2.uuid = uuid →
        alookup st.sessions (getSessionKey uuid params) = none →
        (getSession st (getSessionKey uuid params) uuid params ok co).closed = [e.2]
        ∧ e ∉ (getSession st (getSessionKey uuid params) uuid params ok co).state.sessions
        ∧ (ok = true →
            (getSession st (getSessionKey uuid params) uuid params ok co).result
              = some ⟨st.nextId, uuid, params⟩)) := by
  constructor
  · intro ops hops
    exact (runOps_preserves_good ops initialSessionState (good_empty 0) hops).2.2
  · intro st uuid params ok co e hgood hu hco he hequ hl
    obtain ⟨hnd, hwf, huniq⟩ := hgood
    have hnotin := alookup_eq_none_forall hl
    have hndent : st.sessions.Nodup := List.Nodup.of_map Prod.fst hnd
    have hetrue : startsWithStr (uuid ++ [sep]) e.1 = true := by
      rw [← hequ]; exact (hwf e he).1
    have hfil : st.sessions.filter (fun x => startsWithStr (uuid ++ [sep]) x.1)
        = [e] := by
      refine nodup_all_eq_singleton
        (List.Nodup.sublist (List.filter_sublist _) hndent)
        (List.mem_filter.mpr ⟨he, hetrue⟩) ?_
      intro x hx
      have hxmem := List.mem_of_mem_filter hx
      have hxp : startsWithStr (uuid ++ [sep]) x.1 = true := by
        simpa using List.of_mem_filter hx
      obtain ⟨t, ht⟩ := startsWithStr_exists (hwf x hxmem).1
      rw [ht] at hxp
      have hux : uuid = x.2.uuid := startsWithStr_sep_inj hu (hwf x hxmem).2 hxp
      have hkeys : x.1 = e.1 := huniq x hxmem e he (by rw [← hux, hequ])
      exact eq_of_nodup_keys hnd hxmem he hkeys
    have henot : e ∉ st.sessions.filter (fun x => ! startsWithStr (uuid ++ [sep]) x.1) := by
      intro hmem
      have := List.of_mem_filter hmem
      simp [hetrue] at this
    have hene : e ≠ (getSessionKey uuid params,
        (⟨st.nextId, uuid, params⟩ : ConnectedClient)) := by
      intro hcontra
      exact hnotin e he (by rw [hcontra])
    cases ok with
    | true =>
      have hstate : (getSession st (getSessionKey uuid params) uuid params
            true co).state.sessions
          = st.sessions.filter (fun x => ! startsWithStr (uuid ++ [sep]) x.1)
            ++ [(getSessionKey uuid params,
                  (⟨st.nextId, uuid, params⟩ : ConnectedClient))] := by
        simp [getSession, hl, hco]
      refine ⟨by simp [getSession, hl, hco, hfil], ?_,
        fun _ => by simp [getSession, hl]⟩
      rw [hstate]
      intro hmem
      rcases List.mem_append.mp hmem with hmem | hmem
      · exact henot hmem
      · exact hene (List.mem_singleton.mp hmem)
    | false =>
      have hstate : (getSession st (getSessionKey uuid params) uuid params
            false co).state.sessions
          = st.sessions.filter (fun x => ! startsWithStr (uuid ++ [sep]) x.1) := by
        simp [getSession, hl, hco]
      refine ⟨by simp [getSession, hl, hco, hfil], ?_,
        fun hcontra => by cases hcontra⟩
      rw [hstate]
      exact henot

def sessionStateW : SessionState :=
  ⟨[(getSessionKey "a".data "p".data, ⟨0, "a".data, "p".data⟩)], 1⟩

def sessionEntryW : Str × ConnectedClient :=
  (getSessionKey "a".data "p".data, ⟨0, "a".data, "p".data⟩)

/-- C3 counterexample: when the awaited `cleanup()` of the drifted session
rejects, its `delete` is skipped but the new session is still installed, so
the registry holds two sessions for server `a` under different keys and the
previously live session was closed zero times, refuting the claim as
stated. -/
theorem session_registry_invariant_counterexample :
    ¬ UniqueServer (getSession sessionStateW (getSessionKey "a".data "q".data)
        "a".data "q".data true failingCleanup).state
    ∧ (getSession sessionStateW (getSessionKey "a".data "q".data)
        "a".data "q".data true failingCleanup).closed = [] :=
  ⟨by decide, by decide⟩

def opsW : List SessionOp :=
  [SessionOp.get "a".data "p".data true trueCleanup,
   SessionOp.get "a".data "q".data true trueCleanup]

theorem opsW_ok : ∀ op ∈ opsW, OpUuidOk op ∧ OpTeardownOk op := by
  intro op hop
  rcases List.mem_cons.mp hop with h | h
  · rw [h]; exact ⟨by decide, fun k => rfl⟩
  · rcases List.mem_cons.mp h with h | h
    · rw [h]; exact ⟨by decide, fun k => rfl⟩
    · cases h

/-- Witness for C3: a concrete operation sequence with resolving teardowns,
and a concrete params-change supersession. -/
theorem session_registry_invariant_witness :
    ((∀ op ∈ opsW, OpUuidOk op ∧ OpTeardownOk op)
      ∧ UniqueServer (runOps opsW initialSessionState))
    ∧ (GoodState sessionStateW ∧ sep ∉ "a".data
      ∧ (∀ k, trueCleanup k = true)
      ∧ sessionEntryW ∈ sessionStateW.sessions
      ∧ sessionEntryW.2.uuid = "a".data
      ∧ alookup sessionStateW.sessions (getSessionKey "a".data "q".data) = none
      ∧ ((getSession sessionStateW (getSessionKey "a".data "q".data)
            "a".data "q".data true trueCleanup).closed = [sessionEntryW.2]
        ∧ sessionEntryW ∉ (getSession sessionStateW (getSessionKey "a".data "q".data)
            "a".data "q".data true trueCleanup).state.sessions
        ∧ (true = true →
            (getSession sessionStateW (getSessionKey "a".data "q".data)
              "a".data "q".data true trueCleanup).result
              = some ⟨sessionStateW.nextId, "a".data, "q".data⟩))) :=
  ⟨⟨opsW_ok, session_registry_invariant.1 opsW opsW_ok⟩,
   by decide, by decide, fun k => rfl, by decide, by decide, by decide,
   session_registry_invariant.2 sessionStateW "a".data "q".data true trueCleanup
     sessionEntryW (by decide) (by decide) (fun k => rfl) (by decide) (by decide)
     (by decide)⟩

theorem runOpsTrace_cached (n : Nat) (st : SessionState) (uuid : Str)
    (params : ServerParameters) (co : Str → Bool) (c : ConnectedClient)
    (h : alookup st.sessions (getSessionKey uuid params) = some c) :
    runOpsTrace (List.replicate n (SessionOp.get uuid params true co)) st
      = (st, List.replicate n (some c), 0) := by
  induction n with
  | zero => rfl
  | succ m ih =>
    simp [List.replicate_succ, runOpsTrace, getSession, h, ih]

/-- C4: starting from a registry with no session under the key for
`(uuid, params)`, a sequence of `n+1` successful `getSession` calls with that
same pair opens exactly one transport, and every call returns the identical
session object — whatever the teardown oracle does. -/
theorem getSession_reuse_single_transport (st : SessionState) (uuid : Str)
    (params : ServerParameters) (n : Nat) (co : Str → Bool)
    (habs : alookup st.sessions (getSessionKey uuid params) = none) :
    (runOpsTrace (List.replicate (n + 1) (SessionOp.get uuid params true co)) st).2.2 = 1
    ∧ ∃ c : ConnectedClient,
      (runOpsTrace (List.replicate (n + 1) (SessionOp.get uuid params true co)) st).2.1
        = List.replicate (n + 1) (some c) := by
  have hrem : alookup (st.sessions.filter
      (fun e => ! startsWithStr (uuid ++ [sep]) e.1 || ! co e.1))
      (getSessionKey uuid params)
      = none := alookup_filter_of_none _ habs
  have hlook : alookup ((st.sessions.filter
        (fun e => ! startsWithStr (uuid ++ [sep]) e.1 || ! co e.1))
        ++ [(getSessionKey uuid params,
              (⟨st.nextId, uuid, params⟩ : ConnectedClient))])
      (getSessionKey uuid params) = some ⟨st.nextId, uuid, params⟩ := by
    rw [alookup_append_left_none hrem]; simp [alookup]
  have hrest := runOpsTrace_cached n
    ⟨(st.sessions.filter (fun e => ! startsWithStr (uuid ++ [sep]) e.1 || ! co e.1))
        ++ [(getSessionKey uuid params,
              (⟨st.nextId, uuid, params⟩ : ConnectedClient))], st.nextId + 1⟩
    uuid params co ⟨st.nextId, uuid, params⟩ hlook
  refine ⟨?_, ⟨st.nextId, uuid, params⟩, ?_⟩ <;>
    simp [List.replicate_succ, runOpsTrace, getSession, habs, hrest]

/-- Witness for C4: three calls for the same server and params from an empty
registry open one transport and return the same session. -/
theorem getSession_reuse_single_transport_witness :
    (alookup initialSessionState.sessions (getSessionKey "a".data "p".data) = none)
    ∧ ((runOpsTrace (List.replicate (2 + 1)
            (SessionOp.get "a".data "p".data true trueCleanup))
          initialSessionState).2.2 = 1
      ∧ ∃ c : ConnectedClient,
        (runOpsTrace (List.replicate (2 + 1)
              (SessionOp.get "a".data "p".data true trueCleanup))
            initialSessionState).2.1 = List.replicate (2 + 1) (some c)) :=
  ⟨by decide,
   getSession_reuse_single_transport initialSessionState "a".data "p".data 2
     trueCleanup (by decide)⟩

/-- C10: a `getSession(sessionKey, uuid, params)` call never removes or
replaces registry entries belonging to a different server id: any key of the
form `v_...` for a separator-free `v ≠ uuid` maps to the same entry before
and after the call, in every path including teardown failure. -/
theorem getSession_frame_other_servers (st : SessionState) (sessionKey uuid : Str)
    (params : ServerParameters) (ok : Bool) (co : Str → Bool) (v k : Str)
    (hu : sep ∉ uuid) (hv : sep ∉ v) (hne : v ≠ uuid)
    (hk : startsWithStr (v ++ [sep]) k = true)
    (hkey : startsWithStr (uuid ++ [sep]) sessionKey = true) :
    alookup (getSession st sessionKey uuid params ok co).state.sessions k
      = alookup st.sessions k := by
  have hkfalse : startsWithStr (uuid ++ [sep]) k = false :=
    startsWithStr_ne_server hu hv (Ne.symm hne) hk
  have hpres : alookup (st.sessions.filter
      (fun e => ! (startsWithStr (uuid ++ [sep]) e.1 && co e.1))) k
      = alookup st.sessions k :=
    alookup_filter_of_holds (fun e _ hek => by simp [hek, hkfalse])
  have hkne : k ≠ sessionKey := fun he => by
    rw [he, hkey] at hkfalse; cases hkfalse
  cases hl : alookup st.sessions sessionKey with
  | some c => simp [getSession, hl]
  | none =>
    cases ok with
    | true =>
      have hstate : (getSession st sessionKey uuid params true co).state.sessions
          = st.sessions.filter
              (fun e => ! (startsWithStr (uuid ++ [sep]) e.1 && co e.1))
            ++ [(sessionKey, (⟨st.nextId, uuid, params⟩ : ConnectedClient))] := by
        simp [getSession, hl]
      rw [hstate, alookup_append_singleton_ne hkne]
      exact hpres
    | false =>
      have hstate : (getSession st sessionKey uuid params false co).state.sessions
          = st.sessions.filter
              (fun e => ! (startsWithStr (uuid ++ [sep]) e.1 && co e.1)) := by
        simp [getSession, hl]
      rw [hstate]
      exact hpres

/-- Witness for C10: a call for server `a` leaves the entry of server `b`
untouched. -/
theorem getSession_frame_other_servers_witness :
    (sep ∉ "a".data ∧ sep ∉ "b".data ∧ "b".data ≠ "a".data
      ∧ startsWithStr ("b".data ++ [sep]) (getSessionKey "b".data "x".data) = true
      ∧ startsWithStr ("a".data ++ [sep]) (getSessionKey "a".data "y".data) = true)
    ∧ alookup (getSession ⟨[(getSessionKey "b".data "x".data, ⟨0, "b".data, "x".data⟩)], 1⟩
        (getSessionKey "a".data "y".data) "a".data "y".data true
        trueCleanup).state.sessions
        (getSessionKey "b".data "x".data)
      = alookup (⟨[(getSessionKey "b".data "x".data, ⟨0, "b".data, "x".data⟩)],
          1⟩ : SessionState).sessions (getSessionKey "b".data "x".data) :=
  ⟨⟨by decide, by decide, by decide, by decide, by decide⟩,
   getSession_frame_other_servers
     ⟨[(getSessionKey "b".data "x".data, ⟨0, "b".data, "x".data⟩)], 1⟩
     (getSessionKey "a".data "y".data) "a".data "y".data true trueCleanup "b".data
     (getSessionKey "b".data "x".data)
     (by decide) (by decide) (by decide) (by decide) (by decide)⟩

/-! ### Capability index built by discovery
(src/handlers/static-handlers.ts, handleDiscoverTools)

`toolToServerMap : Record<string, {originalName, serverUuid}>` is modelled as
a function to `Option`, since the handlers only read it by key lookup.
-/

def isNameSafeChar (c : Char) : Bool := c.isAlphanum || c = '_' || c = '-'

/-- Modelled from the spec: `sanitizeName` lives in `utils.ts`, which is not
among the provided sources. Spec section 4.3 says to strip characters unsafe
for the namespace separator under one consistent case policy, and the spec
scenario `GitHub_create_issue` shows case is preserved, so unsafe characters
are stripped and safe ones (alphanumerics, underscore, hyphen) kept
verbatim. -/
def sanitizeName (name : Str) : Str := name.filter isNameSafeChar

structure ServerTool where
  name : Str
deriving DecidableEq

structure ServerData where
  name : Str
  uuid : Str
  tools : List ServerTool
deriving DecidableEq

structure ToolOrigin where
  originalName : Str
  serverUuid : Str
deriving DecidableEq

abbrev ToolToServerMap := Str → Option ToolOrigin

def emptyToolMap : ToolToServerMap := fun _ => none

/-- `this.toolToServerMap[prefixedName] = {...}` (overwrite). -/
def fset (m : ToolToServerMap) (k : Str) (v : ToolOrigin) : ToolToServerMap :=
  fun k' => if k' = k then some v else m k'

/-- ``sanitizeName(`${server.name}_${tool.name}`)``. -/
def prefixedNameOf (server : ServerData) (tool : ServerTool) : Str :=
  sanitizeName (server.name ++ [sep] ++ tool.name)

/-- The per-server registration loop of handleDiscoverTools:
`this.toolToServerMap[prefixedName] = { originalName: tool.name,
serverUuid: server.uuid }` for each declared tool. -/
def registerServerTools (m : ToolToServerMap) (server : ServerData) :
    ToolToServerMap :=
  server.tools.foldl
    (fun acc tool => fset acc (prefixedNameOf server tool) ⟨tool.name, server.uuid⟩) m

def buildToolToServerMap (servers : List ServerData) : ToolToServerMap :=
  servers.foldl registerServerTools emptyToolMap

structure StaticHandlersState where
  toolToServerMap : ToolToServerMap
  instructionToServerMap : Str → Option Str

/-- `StaticToolHandlers.handleDiscoverTools`: wipes `toolToServerMap` and
`instructionToServerMap`, awaits `getMcpServers()`, throws if the fetch
failed, and otherwise registers every fetched tool under its prefixed name.
The human-readable summary text and the server-context/constraint maps are
elided: they do not feed the capability index. -/
def handleDiscoverTools (st : StaticHandlersState)
    (fetch : Except Str (List ServerData)) :
    StaticHandlersState × Except Str Unit :=
  match fetch with
  | Except.error e =>
    (⟨emptyToolMap, fun _ => none⟩,
      Except.error ("Could not fetch MCP servers: ".data ++ e
        ++ ". Please ensure your Pluggedin API key and URL are correctly configured.".data))
  | Except.ok data =>
    (⟨buildToolToServerMap data, fun _ => none⟩, Except.ok ())

theorem lookup_foldl_tools_ne (s : ServerData) (ts : List ServerTool)
    (m : ToolToServerMap) (k : Str)
    (h : ∀ t' ∈ ts, prefixedNameOf s t' ≠ k) :
    (ts.foldl (fun acc tool =>
      fset acc (prefixedNameOf s tool) ⟨tool.name, s.uuid⟩) m) k = m k := by
  induction ts generalizing m with
  | nil => rfl
  | cons t₀ rest ih =>
    have h0 : prefixedNameOf s t₀ ≠ k := h t₀ (by simp)
    rw [List.foldl_cons, ih _ (fun t' ht' => h t' (by simp [ht']))]
    simp [fset, Ne.symm h0]

theorem lookup_register_tools (s : ServerData) (t : ServerTool)
    (ts : List ServerTool) (m : ToolToServerMap)
    (ht : t ∈ ts)
    (huniq : ∀ t' ∈ ts, prefixedNameOf s t' = prefixedNameOf s t → t' = t) :
    (ts.foldl (fun acc tool =>
      fset acc (prefixedNameOf s tool) ⟨tool.name, s.uuid⟩) m)
      (prefixedNameOf s t) = some ⟨t.name, s.uuid⟩ := by
  induction ts generalizing m with
  | nil => cases ht
  | cons t₀ rest ih =>
    by_cases hmem : t ∈ rest
    · rw [List.foldl_cons]
      exact ih _ hmem (fun t' ht' h => huniq t' (by simp [ht']) h)
    · have ht0 : t = t₀ := by
        rcases List.mem_cons.mp ht with h | h
        · exact h
        · exact absurd h hmem
      subst ht0
      rw [List.foldl_cons]
      have hne : ∀ t' ∈ rest, prefixedNameOf s t' ≠ prefixedNameOf s t := by
        intro t' ht' heq
        exact hmem ((huniq t' (by simp [ht']) heq) ▸ ht')
      rw [lookup_foldl_tools_ne s rest _ _ hne]
      simp [fset]

theorem lookup_foldl_servers_ne (servers : List ServerData)
    (m : ToolToServerMap) (k : Str)
    (h : ∀ s' ∈ servers, ∀ t' ∈ s'.tools, prefixedNameOf s' t' ≠ k) :
    (servers.foldl registerServerTools m) k = m k := by
  induction servers generalizing m with
  | nil => rfl
  | cons s₀ rest ih =>
    rw [List.foldl_cons, ih _ (fun s' hs' => h s' (by simp [hs']))]
    exact lookup_foldl_tools_ne s₀ s₀.tools m k (fun t' ht' => h s₀ (by simp) t' ht')

theorem lookup_build_map (servers : List ServerData) (s : ServerData)
    (t : ServerTool) (m : ToolToServerMap)
    (hs : s ∈ servers) (ht : t ∈ s.tools)
    (huniq : ∀ s' ∈ servers, ∀ t' ∈ s'.tools,
      prefixedNameOf s' t' = prefixedNameOf s t → s' = s ∧ t' = t) :
    (servers.foldl registerServerTools m) (prefixedNameOf s t)
      = some ⟨t.name, s.uuid⟩ := by
  induction servers generalizing m with
  | nil => cases hs
  | cons s₀ rest ih =>
    by_cases hmem : s ∈ rest
    · rw [List.foldl_cons]
      exact ih _ hmem (fun s' hs' t' ht' h => huniq s' (by simp [hs']) t' ht' h)
    · have hs0 : s = s₀ := by
        rcases List.mem_cons.mp hs with h | h
        · exact h
        · exact absurd h hmem
      subst hs0
      rw [List.foldl_cons]
      have hner : ∀ s' ∈ rest, ∀ t' ∈ s'.tools,
          prefixedNameOf s' t' ≠ prefixedNameOf s t := by
        intro s' hs' t' ht' heq
        exact hmem ((huniq s' (by simp [hs']) t' ht' heq).1 ▸ hs')
      rw [lookup_foldl_servers_ne rest _ _ hner]
      simp only [registerServerTools]
      exact lookup_register_tools s t s.tools m ht
        (fun t' ht' h => (huniq s (by simp) t' ht' h).2)

/-- C1 (amended): for every capability entry produced by a discovery refresh
whose prefixed name is not also produced by any other entry of that refresh,
looking the prefixed name up in the rebuilt capability index returns exactly
the `{originalName, serverUuid}` pair that produced it (colliding prefixed
names are resolved last-write-wins). -/
theorem resolve_roundtrip_of_unique (st : StaticHandlersState)
    (servers : List ServerData) (s : ServerData) (t : ServerTool)
    (hs : s ∈ servers) (ht : t ∈ s.tools)
    (huniq : ∀ s' ∈ servers, ∀ t' ∈ s'.tools,
      prefixedNameOf s' t' = prefixedNameOf s t → s' = s ∧ t' = t) :
    (handleDiscoverTools st (Except.ok servers)).1.toolToServerMap
      (prefixedNameOf s t) = some ⟨t.name, s.uuid⟩ := by
  simpa [handleDiscoverTools, buildToolToServerMap] using
    lookup_build_map servers s t emptyToolMap hs ht huniq

def collidingServerA : ServerData := ⟨"X_Y".data, "a".data, [⟨"z".data⟩]⟩

def collidingServerB : ServerData := ⟨"X".data, "b".data, [⟨"Y_z".data⟩]⟩

/-- C1 counterexample: server named `X_Y` (id `a`) with tool `z` and server
named `X` (id `b`) with tool `Y_z` both produce the prefixed name `X_Y_z`;
after the refresh, looking up the prefixed name of the first entry returns
the pair of the second entry, not the pair that produced it. -/
theorem resolve_roundtrip_counterexample :
    (handleDiscoverTools ⟨emptyToolMap, fun _ => none⟩
        (Except.ok [collidingServerA, collidingServerB])).1.toolToServerMap
      (prefixedNameOf collidingServerA ⟨"z".data⟩)
      = some ⟨"Y_z".data, "b".data⟩
    ∧ (⟨"Y_z".data, "b".data⟩ : ToolOrigin)
      ≠ ⟨"z".data, collidingServerA.uuid⟩ :=
  ⟨by decide, by decide⟩

def githubServer : ServerData := ⟨"GitHub".data, "s1".data, [⟨"create_issue".data⟩]⟩

/-- Witness for C1: the GitHub scenario — server `GitHub` (id `s1`) with tool
`create_issue` yields index entry `GitHub_create_issue` mapping to
`{originalName: create_issue, serverUuid: s1}`. -/
theorem resolve_roundtrip_of_unique_witness :
    (githubServer ∈ [githubServer]
      ∧ (⟨"create_issue".data⟩ : ServerTool) ∈ githubServer.tools
      ∧ (∀ s' ∈ [githubServer], ∀ t' ∈ s'.tools,
          prefixedNameOf s' t' = prefixedNameOf githubServer ⟨"create_issue".data⟩ →
          s' = githubServer ∧ t' = ⟨"create_issue".data⟩))
    ∧ prefixedNameOf githubServer ⟨"create_issue".data⟩ = "GitHub_create_issue".data
    ∧ (handleDiscoverTools ⟨emptyToolMap, fun _ => none⟩
        (Except.ok [githubServer])).1.toolToServerMap
        (prefixedNameOf githubServer ⟨"create_issue".data⟩)
      = some ⟨"create_issue".data, "s1".data⟩ :=
  ⟨⟨by decide, by decide, by decide⟩, by decide,
   resolve_roundtrip_of_unique ⟨emptyToolMap, fun _ => none⟩ [githubServer]
     githubServer ⟨"create_issue".data⟩ (by decide) (by decide) (by decide)⟩

/-- C7 counterexample: with a previously built index containing
`GitHub_create_issue`, a refresh whose directory fetch fails leaves the
index empty — subsequent resolves observe the wiped index, not the
last-known-good one. -/
theorem refresh_failure_counterexample :
    (handleDiscoverTools
        ⟨fset emptyToolMap "GitHub_create_issue".data ⟨"create_issue".data, "s1".data⟩,
          fun _ => none⟩
        (Except.error "Network Error".data)).1.toolToServerMap
      "GitHub_create_issue".data = none
    ∧ (fset emptyToolMap "GitHub_create_issue".data
        (⟨"create_issue".data, "s1".data⟩ : ToolOrigin)) "GitHub_create_issue".data
      = some ⟨"create_issue".data, "s1".data⟩ :=
  ⟨by decide, by decide⟩

/-- C7 (amended): `handleDiscoverTools` wipes the capability index before the
directory fetch, so a failed fetch reports an error with the index left
empty (not last-known-good); a successful refresh atomically replaces the
index with exactly the one rebuilt from the fetched descriptors. -/
theorem refresh_wipes_then_rebuilds (st : StaticHandlersState) (e : Str)
    (data : List ServerData) :
    (handleDiscoverTools st (Except.error e)).1.toolToServerMap = emptyToolMap
    ∧ (∃ msg, (handleDiscoverTools st (Except.error e)).2 = Except.error msg)
    ∧ (handleDiscoverTools st (Except.ok data)).1.toolToServerMap
        = buildToolToServerMap data
    ∧ (handleDiscoverTools st (Except.ok data)).2 = Except.ok () :=
  ⟨rfl, ⟨_, rfl⟩, rfl, rfl⟩

/-! ### Request dispatcher (mcp-proxy.ts) and static tool wrappers
(tools/get-pluggedin-tools.ts, tools/call-pluggedin-tool.ts)
-/

structure ToolDef where
  name : Str
  description : Str
deriving DecidableEq

/-- A tool as fetched from the Pluggedin API, carrying the internal
`_serverUuid` companion field. -/
structure FetchedTool where
  tool : ToolDef
  serverUuid : Str
deriving DecidableEq

def discoverToolsStaticToolName : Str := "pluggedin_discover_tools".data

def discoverToolsStaticTool : ToolDef :=
  ⟨discoverToolsStaticToolName,
   "Triggers discovery of tools (and resources/templates) for configured MCP servers in the Pluggedin App.".data⟩

/-- `tool.name.split(sep)` followed by `parts.slice(1).join(sep)`. -/
def originalNameOfPrefixed (name : Str) : Str :=
  List.intercalate [sep] ((name.splitOn sep).drop 1)

/-- The per-tool registration step of the ListTools handler: register
`{originalName, serverUuid}` under the fetched prefixed name, skipping tools
whose original name cannot be parsed or whose uuid is missing (the handler
only logs those). -/
def registerFetchedTool (m : ToolToServerMap) (ft : FetchedTool) :
    ToolToServerMap :=
  let originalName := originalNameOfPrefixed ft.tool.name
  if originalName ≠ [] ∧ ft.serverUuid ≠ [] then
    fset m ft.tool.name ⟨originalName, ft.serverUuid⟩
  else m

/-- The ListTools request handler of mcp-proxy.ts: requires the API key and
base URL, fetches the prefixed tool list from the Pluggedin API (oracle
`fetch`), rebuilds `toolToServerMap` from scratch, strips `_serverUuid`, and
prepends the static discovery tool; any failure is rethrown as
`Failed to list tools: ...`. -/
def listToolsHandler (apiKey baseUrl : Option Str)
    (fetch : Except Str (List FetchedTool)) (m : ToolToServerMap) :
    ToolToServerMap × Except Str (List ToolDef) :=
  match apiKey, baseUrl with
  | some _, some _ =>
    match fetch with
    | Except.error e =>
      (m, Except.error ("Failed to list tools: ".data ++ e))
    | Except.ok fetchedTools =>
      (fetchedTools.foldl registerFetchedTool emptyToolMap,
        Except.ok (discoverToolsStaticTool :: fetchedTools.map (·.tool)))
  | _, _ =>
    (m, Except.error "Failed to list tools: Pluggedin API Key or Base URL is not configured.".data)

/-- Invocation metadata (`request.params._meta`): a progress token plus any
other fields. -/
structure RequestMeta where
  progressToken : Option Str
  otherFields : List (Str × Str)
deriving DecidableEq

/-- The CallTool request handler of mcp-proxy.ts: the static discovery tool
is handled locally; otherwise the name is resolved in `toolToServerMap`
(miss throws `Method not found`), the server params are looked up (miss
throws a configuration error), the session is obtained through `getSession`
(miss throws `Session not found`), and the call is proxied downstream with
the original name, the caller arguments and the caller metadata, returning
the downstream result directly. -/
def callToolHandler (Args Resp : Type) (m : ToolToServerMap) (st : SessionState)
    (requestedToolName : Str) (args : Args) (meta : RequestMeta)
    (staticResult : Except Str Resp)
    (serverParams : Str → Option ServerParameters)
    (connectOk : Bool) (cleanupOk : Str → Bool)
    (downstream : ConnectedClient → Str → Args → RequestMeta → Resp) :
    SessionState × Except Str Resp :=
  if requestedToolName = discoverToolsStaticToolName then
    (st, staticResult)
  else
    match m requestedToolName with
    | none =>
      (st, Except.error ("Method not found: ".data ++ requestedToolName))
    | some info =>
      match serverParams info.serverUuid with
      | none =>
        (st, Except.error ("Configuration not found for server UUID: ".data
          ++ info.serverUuid ++ " associated with tool ".data ++ requestedToolName))
      | some params =>
        let r := getSession st (getSessionKey info.serverUuid params)
          info.serverUuid params connectOk cleanupOk
        match r.result with
        | none =>
          (r.state, Except.error ("Session not found for server UUID: ".data
            ++ info.serverUuid))
        | some session =>
          (r.state, Except.ok (downstream session info.originalName args meta))

/-- Content of a CallToolResult; `toolList` stands for the JSON
serialization of a tool array. -/
inductive ToolContent
  | text (s : Str)
  | toolList (tools : List ToolDef)
deriving DecidableEq

structure CallToolResult where
  content : List ToolContent
  isError : Bool
deriving DecidableEq

/-- `GetPluggedinToolsTool.execute`: with no API key, or no downstream
servers, returns the literal `[]` text; otherwise fans out over the servers
(oracle `perServer` yields each server name and either no session/tools
capability, a listing failure, or the listed tools), filters inactive tools
under tools management, prefixes each name with
```${sanitizeName(serverName)}__``, tags descriptions, and returns the
serialized list. Per-server failures are skipped, never propagated. -/
def getPluggedinToolsExecute (apiKey : Option Str)
    (serverParams : List (Str × ServerParameters))
    (perServer : Str → Str × Option (Except Str (List ToolDef)))
    (toolsManagement : Bool)
    (inactive : Str → Str → Bool) : CallToolResult :=
  match apiKey with
  | none => ⟨[ToolContent.text "[]".data], false⟩
  | some _ =>
    if serverParams.isEmpty then ⟨[ToolContent.text "[]".data], false⟩
    else
      ⟨[ToolContent.toolList (serverParams.foldl (fun acc entry =>
          match (perServer entry.1).2 with
          | none => acc
          | some (Except.error _) => acc
          | some (Except.ok tools) =>
            acc ++ ((tools.filter (fun tool =>
                if toolsManagement then ! inactive entry.1 tool.name else true)).map
              (fun tool =>
                ⟨sanitizeName (perServer entry.1).1 ++ [sep, sep] ++ tool.name,
                 "[".data ++ (perServer entry.1).1 ++ "] ".data
                   ++ tool.description⟩))) [])],
        false⟩

/-- The session found by `findClientForTool` for a prefixed tool name. -/
structure FoundClient where
  serverName : Str
deriving DecidableEq

def configErrorMsg : Str :=
  "Configuration Error: PluggedinMCP API Key is missing. Please configure the server.".data

/-- `CallPluggedinToolTool.execute`: when no client session was found, a
missing API key yields an `isError` result, a matching inactive tool throws
`Tool is inactive`, and anything else throws `Unknown or inactive tool`;
when a client was found, the original name is recovered by dropping
``sanitizeName(serverName) + "__"``, and the call is proxied downstream with
the arguments and a `_meta` rebuilt from just the progress token. -/
def callPluggedinToolExecute (Args : Type)
    (apiKey : Option Str)
    (clientForTool : Option FoundClient)
    (toolsManagement : Bool) (inactiveHit : Bool)
    (prefixedToolName : Str) (toolArgs : Args) (requestMeta : RequestMeta)
    (downstream : FoundClient → Str → Args → RequestMeta → CallToolResult) :
    Except Str CallToolResult :=
  match clientForTool with
  | none =>
    match apiKey with
    | none => Except.ok ⟨[ToolContent.text configErrorMsg], true⟩
    | some _ =>
      if toolsManagement && inactiveHit then
        Except.error ("Tool is inactive: ".data ++ prefixedToolName)
      else
        Except.error ("Unknown or inactive tool: ".data ++ prefixedToolName)
  | some clientFound =>
    let originalToolName :=
      prefixedToolName.drop ((sanitizeName clientFound.serverName).length + 2)
    if originalToolName = [] then
      Except.error ("Could not extract original tool name from prefixed name: ".data
        ++ prefixedToolName)
    else
      Except.ok (downstream clientFound originalToolName toolArgs
        ⟨requestMeta.progressToken, []⟩)

/-- C2 (amended): when the name resolves and the session is obtained, the
CallTool handler forwards the invocation downstream with the original
unprefixed name, the caller arguments and metadata unchanged, and returns
the downstream response verbatim; the `tool_call` wrapper likewise forwards
the original name and the arguments unchanged and returns the response
verbatim, but rebuilds the forwarded metadata from just the progress token. -/
theorem proxied_call_forwarding :
    (∀ (Args Resp : Type) (m : ToolToServerMap) (st : SessionState) (name : Str)
      (args : Args) (meta : RequestMeta) (staticResult : Except Str Resp)
      (serverParams : Str → Option ServerParameters) (ok : Bool) (co : Str → Bool)
      (downstream : ConnectedClient → Str → Args → RequestMeta → Resp)
      (info : ToolOrigin) (p : ServerParameters) (c : ConnectedClient),
      name ≠ discoverToolsStaticToolName →
      m name = some info →
      serverParams info.serverUuid = some p →
      (getSession st (getSessionKey info.serverUuid p) info.serverUuid p ok co).result
        = some c →
      (callToolHandler Args Resp m st name args meta staticResult serverParams ok co
          downstream).2
        = Except.ok (downstream c info.originalName args meta))
    ∧ (∀ (Args : Type) (apiKey : Str) (clientFound : FoundClient)
      (tm ih : Bool) (prefixedToolName : Str) (toolArgs : Args)
      (meta : RequestMeta)
      (downstream : FoundClient → Str → Args → RequestMeta → CallToolResult),
      prefixedToolName.drop ((sanitizeName clientFound.serverName).length + 2) ≠ [] →
      callPluggedinToolExecute Args (some apiKey) (some clientFound) tm ih
          prefixedToolName toolArgs meta downstream
        = Except.ok (downstream clientFound
            (prefixedToolName.drop ((sanitizeName clientFound.serverName).length + 2))
            toolArgs ⟨meta.progressToken, []⟩)) := by
  constructor
  · intro Args Resp m st name args meta staticResult serverParams ok co downstream
      info p c hname hm hp hs
    simp [callToolHandler, hname, hm, hp, hs]
  · intro Args apiKey clientFound tm ih prefixedToolName toolArgs meta downstream hdrop
    simp [callPluggedinToolExecute, hdrop]

instance {ε α : Type} [DecidableEq ε] [DecidableEq α] :
    DecidableEq (Except ε α) := fun x y =>
  match x, y with
  | Except.ok a, Except.ok b =>
    if h : a = b then isTrue (by rw [h])
    else isFalse (fun hc => h (Except.ok.inj hc))
  | Except.error a, Except.error b =>
    if h : a = b then isTrue (by rw [h])
    else isFalse (fun hc => h (Except.error.inj hc))
  | Except.ok _, Except.error _ => isFalse (fun hc => Except.noConfusion hc)
  | Except.error _, Except.ok _ => isFalse (fun hc => Except.noConfusion hc)

def metaX : RequestMeta := ⟨some "tok7".data, [("traceId".data, "abc".data)]⟩

/-- Renders the forwarded metadata into the result so it is observable. -/
def echoMetaResult : RequestMeta → CallToolResult :=
  fun meta =>
    ⟨[ToolContent.text (meta.otherFields.foldl (fun a kv => a ++ kv.1 ++ kv.2) [])],
      false⟩

def fcW : FoundClient := ⟨"srv".data⟩

/-- C2 counterexample: the `tool_call` wrapper does not pass the invocation
metadata unchanged — a metadata object with a field besides the progress
token reaches the downstream call with that field dropped. -/
theorem proxied_meta_counterexample :
    callPluggedinToolExecute Nat (some "k".data) (some fcW) false false
        "srv__tool".data 0 metaX (fun _ _ _ meta => echoMetaResult meta)
      ≠ Except.ok (echoMetaResult metaX) := by decide

def metaW : RequestMeta := ⟨some "tok".data, []⟩

def mW : ToolToServerMap :=
  fset emptyToolMap "GitHub_create_issue".data ⟨"create_issue".data, "s1".data⟩

def serverParamsW : Str → Option ServerParameters :=
  fun u => if u = "s1".data then some "p".data else none

def downstreamW : ConnectedClient → Str → Nat → RequestMeta → CallToolResult :=
  fun _ n _ _ => ⟨[ToolContent.text n], false⟩

def downstream2W : FoundClient → Str → Nat → RequestMeta → CallToolResult :=
  fun _ n _ _ => ⟨[ToolContent.text n], false⟩

def clientW : ConnectedClient := ⟨0, "s1".data, "p".data⟩

/-- Witness for C2 at concrete inputs for both dispatch paths. -/
theorem proxied_call_forwarding_witness :
    ("GitHub_create_issue".data ≠ discoverToolsStaticToolName
      ∧ mW "GitHub_create_issue".data = some ⟨"create_issue".data, "s1".data⟩
      ∧ serverParamsW "s1".data = some "p".data
      ∧ (getSession initialSessionState (getSessionKey "s1".data "p".data)
          "s1".data "p".data true trueCleanup).result = some clientW
      ∧ (callToolHandler Nat CallToolResult mW initialSessionState
            "GitHub_create_issue".data 5 metaW
            (Except.ok (⟨[], false⟩ : CallToolResult)) serverParamsW true
            trueCleanup downstreamW).2
        = Except.ok (downstreamW clientW "create_issue".data 5 metaW))
    ∧ ("srv__tool".data.drop ((sanitizeName fcW.serverName).length + 2) ≠ []
      ∧ callPluggedinToolExecute Nat (some "k".data) (some fcW) false false
            "srv__tool".data 5 metaW downstream2W
        = Except.ok (downstream2W fcW
            ("srv__tool".data.drop ((sanitizeName fcW.serverName).length + 2))
            5 ⟨metaW.progressToken, []⟩)) :=
  ⟨⟨by decide, by decide, by decide, by decide,
    proxied_call_forwarding.1 Nat CallToolResult mW initialSessionState
      "GitHub_create_issue".data 5 metaW (Except.ok ⟨[], false⟩) serverParamsW true
      trueCleanup downstreamW ⟨"create_issue".data, "s1".data⟩ "p".data clientW
      (by decide) (by decide) (by decide) (by decide)⟩,
   ⟨by decide,
    proxied_call_forwarding.2 Nat "k".data fcW false false "srv__tool".data 5 metaW
      downstream2W (by decide)⟩⟩

/-- C5 counterexample: with the API key missing, the ListTools protocol
handler raises a `Failed to list tools` error instead of returning a
(possibly empty) list. -/
theorem missing_api_key_listing_raises :
    (listToolsHandler none (some "https://plugged.in".data) (Except.ok [])
        emptyToolMap).2
      = Except.error "Failed to list tools: Pluggedin API Key or Base URL is not configured.".data :=
  rfl

/-- C5 (amended): with the API key missing, the `get_tools` static tool
returns a successful empty-list result and the `tool_call` static tool
returns an explicit configuration-error result, but the ListTools protocol
handler raises a configuration error instead of returning a list. -/
theorem missing_api_key_behavior :
    (∀ (serverParams : List (Str × ServerParameters))
      (perServer : Str → Str × Option (Except Str (List ToolDef)))
      (tm : Bool) (inactive : Str → Str → Bool),
      getPluggedinToolsExecute none serverParams perServer tm inactive
        = ⟨[ToolContent.text "[]".data], false⟩)
    ∧ (∀ (Args : Type) (tm ih : Bool) (name : Str) (toolArgs : Args)
      (meta : RequestMeta)
      (downstream : FoundClient → Str → Args → RequestMeta → CallToolResult),
      callPluggedinToolExecute Args none none tm ih name toolArgs meta downstream
        = Except.ok ⟨[ToolContent.text configErrorMsg], true⟩)
    ∧ (∀ (baseUrl : Option Str) (fetch : Except Str (List FetchedTool))
      (m : ToolToServerMap),
      (listToolsHandler none baseUrl fetch m).2
        = Except.error "Failed to list tools: Pluggedin API Key or Base URL is not configured.".data) := by
  refine ⟨fun _ _ _ _ => rfl, fun _ _ _ _ _ _ _ => rfl, ?_⟩
  intro baseUrl fetch m
  cases baseUrl <;> rfl

/-- C6 (code bug): when the tools API fetch fails, the ListTools handler
throws `Failed to list tools: ...` and returns no list at all, so the static
discovery tool is not included — contradicting the comment in its own catch
block (`Log API fetch error but still return the static tool`). -/
theorem listTools_fetch_error_drops_static_tool :
    (listToolsHandler (some "pg_in_key".data) (some "https://plugged.in".data)
        (Except.error "Network Error".data) emptyToolMap).2
      = Except.error "Failed to list tools: Network Error".data := by decide

/-- C8: invoking a name that is neither the static discovery tool nor
present in the capability index fails with an explicit error naming the
requested capability — `Method not found: <name>` in the CallTool handler
and `Unknown or inactive tool: <name>` in the `tool_call` wrapper — never a
silent empty success. -/
theorem unknown_capability_error :
    (∀ (Args Resp : Type) (m : ToolToServerMap) (st : SessionState) (name : Str)
      (args : Args) (meta : RequestMeta) (staticResult : Except Str Resp)
      (serverParams : Str → Option ServerParameters) (ok : Bool) (co : Str → Bool)
      (downstream : ConnectedClient → Str → Args → RequestMeta → Resp),
      name ≠ discoverToolsStaticToolName → m name = none →
      (callToolHandler Args Resp m st name args meta staticResult serverParams ok co
          downstream).2
        = Except.error ("Method not found: ".data ++ name))
    ∧ (∀ (Args : Type) (apiKey : Str) (tm : Bool) (name : Str) (toolArgs : Args)
      (meta : RequestMeta)
      (downstream : FoundClient → Str → Args → RequestMeta → CallToolResult),
      callPluggedinToolExecute Args (some apiKey) none tm false name toolArgs meta
          downstream
        = Except.error ("Unknown or inactive tool: ".data ++ name)) := by
  constructor
  · intro Args Resp m st name args meta staticResult serverParams ok co downstream
      hname hm
    simp [callToolHandler, hname, hm]
  · intro Args apiKey tm name toolArgs meta downstream
    simp [callPluggedinToolExecute]

/-- Witness for C8: the unregistered name `foo_bar` on both dispatch paths. -/
theorem unknown_capability_error_witness :
    ("foo_bar".data ≠ discoverToolsStaticToolName
      ∧ emptyToolMap "foo_bar".data = none
      ∧ (callToolHandler Nat CallToolResult emptyToolMap initialSessionState
            "foo_bar".data 5 metaW (Except.ok (⟨[], false⟩ : CallToolResult))
            (fun _ => none) true trueCleanup downstreamW).2
        = Except.error ("Method not found: ".data ++ "foo_bar".data))
    ∧ callPluggedinToolExecute Nat (some "k".data) none false false "foo_bar".data
          (5 : Nat) metaW downstream2W
        = Except.error ("Unknown or inactive tool: ".data ++ "foo_bar".data) :=
  ⟨⟨by decide, rfl,
    unknown_capability_error.1 Nat CallToolResult emptyToolMap initialSessionState
      "foo_bar".data 5 metaW (Except.ok ⟨[], false⟩) (fun _ => none) true
      trueCleanup downstreamW (by decide) rfl⟩,
   unknown_capability_error.2 Nat "k".data false "foo_bar".data 5 metaW downstream2W⟩
